import Mathlib

/-!
Shallow embedding of `src/MyVector/vector.h`: the raw-storage class `RawMemory<T>`
and the growable array `Vector<T>` built on it.

Modelling conventions:
* A `RawMemory` is modelled by the identity of its allocated block (`Option Nat`,
  `none` = `nullptr`) together with its `capacity_` field.
* A `Vector<T>` in a quiescent, invariant-respecting state is modelled by the list
  of its live element values (`data`, slots `[0, size_)`) and its capacity
  (`cap = data_.Capacity()`); `size_` is `data.length`.
* For the exception paths of `InsertionWithRelocation` a finer model is used:
  a block is a `List (Option α)` of length = capacity, where `some v` is a slot
  holding a live constructed object of value `v` and `none` is a raw/destroyed slot.
* `std::uninitialized_default_construct_n` produces, for each element type, some
  fixed fill result; the model threads it as an explicit `fill` argument
  (for `int`, default-initialization leaves the value indeterminate).
-/

namespace MyVector

/-- Model of `RawMemory<T>`: `buffer` is the identity of the owned allocation
(`none` = `nullptr`), `capacity` is the `capacity_` field (element count). -/
structure RawMemory where
  buffer : Option Nat
  capacity : Nat
deriving DecidableEq

/-- Model of `RawMemory(RawMemory&& other)` (vector.h:22-27): the new object takes
`other`'s buffer and capacity; `other` is left with `buffer_ = nullptr`,
`capacity_ = 0`. Returns (constructed object, source after the construction). -/
def RawMemory.moveConstruct (other : RawMemory) : RawMemory × RawMemory :=
  (⟨other.buffer, other.capacity⟩, ⟨none, 0⟩)

/-- Model of `RawMemory::operator=(RawMemory&& other)` (vector.h:29-33):
`std::swap(buffer_, other.buffer_)` exchanges the two buffer pointers, then
`capacity_ = other.capacity_` copies the source's capacity WITHOUT resetting it.
Returns (destination after, source after). -/
def RawMemory.moveAssign (self other : RawMemory) : RawMemory × RawMemory :=
  (⟨other.buffer, other.capacity⟩, ⟨self.buffer, other.capacity⟩)

/-- Model of `RawMemory::Swap` (vector.h:57-60): exchanges buffer and capacity. -/
def RawMemory.SwapRM (self other : RawMemory) : RawMemory × RawMemory :=
  (other, self)

/-- Model of a `Vector<T>` satisfying its live/raw partition: `data` lists the
values of the live slots `[0, size_)`; `cap` is `data_.Capacity()`. -/
structure Vec (α : Type) where
  data : List α
  cap : Nat
deriving DecidableEq

namespace Vec

variable {α : Type}

/-- `Vector::Size` (vector.h:263-265). -/
def Size (v : Vec α) : Nat := v.data.length

/-- The documented size/capacity invariant: `size_ ≤ data_.Capacity()`. -/
def inv (v : Vec α) : Prop := v.Size ≤ v.cap

instance (v : Vec α) : Decidable v.inv := by unfold inv; infer_instance

/-- The slot-level view of the block owned by a vector in an invariant state:
slots `[0, size_)` hold live constructed objects, slots `[size_, capacity)` are raw. -/
def slots (v : Vec α) : List (Option α) :=
  v.data.map some ++ List.replicate (v.cap - v.Size) none

/-- `Vector()` (vector.h:113-116): empty, default `RawMemory` of capacity 0. -/
def empty : Vec α := ⟨[], 0⟩

/-- `Vector(size_t size)` (vector.h:118-122): allocates capacity `size` and
value-constructs `size` elements; `dflt` is the value-constructed value of `T`. -/
def ofSize (n : Nat) (dflt : α) : Vec α := ⟨List.replicate n dflt, n⟩

/-- `Vector(const Vector&)` (vector.h:124-128): allocates capacity `other.size_`
and copies the `size_` elements. -/
def copyConstruct (other : Vec α) : Vec α := ⟨other.data, other.Size⟩

/-- `Vector(Vector&&)` (vector.h:130-133): takes the source's storage via the
`RawMemory` move constructor and exchanges `size_` with 0.
Returns (constructed object, source after). -/
def moveConstruct (other : Vec α) : Vec α × Vec α :=
  (⟨other.data, other.cap⟩, ⟨[], 0⟩)

/-- `Vector::Reserve` (vector.h:239-252): no-op when `new_capacity ≤ Capacity()`,
otherwise relocates into a fresh block of exactly `new_capacity`. -/
def Reserve (v : Vec α) (new_capacity : Nat) : Vec α :=
  if new_capacity ≤ v.cap then v else ⟨v.data, new_capacity⟩

/-- The capacity chosen by the growth paths (vector.h:186 and vector.h:298):
`size_ == 0 ? 1 : size_ * 2`. -/
def newCapOnFull (v : Vec α) : Nat := if v.Size = 0 then 1 else v.Size * 2

/-- `Vector::EmplaceBack` (vector.h:183-197): when full, allocate
`size_ == 0 ? 1 : size_ * 2`, construct the new element at index `size_` of the
new block, relocate, destroy the old elements, swap blocks; otherwise construct
in place at index `size_`. Either way `size_` is incremented. -/
def EmplaceBack (v : Vec α) (a : α) : Vec α :=
  if v.Size = v.cap then ⟨v.data ++ [a], v.newCapOnFull⟩
  else ⟨v.data ++ [a], v.cap⟩

/-- `Vector::PushBack` (vector.h:175-181): delegates to `EmplaceBack`. -/
def PushBack (v : Vec α) (a : α) : Vec α := v.EmplaceBack a

/-- `Vector::PopBack` (vector.h:199-204): when `Size() != 0`, destroy the slot at
`size_ - 1` and decrement `size_`; otherwise do nothing. -/
def PopBack (v : Vec α) : Vec α :=
  if v.Size ≠ 0 then ⟨v.data.dropLast, v.cap⟩ else v

/-- `Vector::Resize` (vector.h:161-173): when growing, `Reserve(new_size)` if
needed then `std::uninitialized_default_construct_n` on the newly exposed slots;
when shrinking (or equal), destroy slots `[new_size, size_)`. `fill` is the value
default-initialization produces for the element type. -/
def Resize (v : Vec α) (new_size : Nat) (fill : α) : Vec α :=
  if v.Size < new_size then
    let v' := v.Reserve new_size
    ⟨v'.data ++ List.replicate (new_size - v.Size) fill, v'.cap⟩
  else ⟨v.data.take new_size, v.cap⟩

/-- `Vector::Emplace` (vector.h:206-222): at `pos == end()` delegate to
`EmplaceBack`; otherwise insert at offset `pos_index` with relocation when full
(`InsertionWithRelocation`, new capacity `size_ == 0 ? 1 : size_ * 2`) or in
place (`InsertionWithoutRelocation`), then increment `size_`. -/
def Emplace (v : Vec α) (pos_index : Nat) (a : α) : Vec α :=
  if pos_index = v.Size then v.EmplaceBack a
  else if v.Size = v.cap then ⟨v.data.insertIdx pos_index a, v.newCapOnFull⟩
  else ⟨v.data.insertIdx pos_index a, v.cap⟩

/-- `Vector::Insert` (vector.h:231-237): delegates to `Emplace`. -/
def Insert (v : Vec α) (pos_index : Nat) (a : α) : Vec α := v.Emplace pos_index a

/-- `Vector::Erase` (vector.h:224-229): move-assigns `[pos+1, end)` one slot to
the left, then `PopBack` destroys the trailing duplicate. -/
def Erase (v : Vec α) (pos_index : Nat) : Vec α :=
  ⟨v.data.eraseIdx pos_index, v.cap⟩

/-- `Vector::operator=(const Vector&)`, non-aliased case (vector.h:135-154):
when `other.size_ > data_.Capacity()`, build `Vector other_copy(other)` and swap
it in (capacity becomes `other.size_`); otherwise copy into the existing block
(capacity unchanged), destroying or copy-constructing the tail as needed, and
set `size_ = other.size_`. -/
def copyAssign (self other : Vec α) : Vec α :=
  if self.cap < other.Size then ⟨other.data, other.Size⟩
  else ⟨other.data, self.cap⟩

/-- `Vector::Swap` (vector.h:254-257): exchanges storage and `size_`.
Returns (self after, other after). -/
def SwapV (self other : Vec α) : Vec α × Vec α := (other, self)

/-- `Vector::operator=(Vector&&)` (vector.h:156-159): `Swap(other)`.
Returns (self after, other after). -/
def moveAssign (self other : Vec α) : Vec α × Vec α := (other, self)

/-- `Vector::operator=(const Vector&)` when `&other == this` (vector.h:135-154):
the guard `this != &other` fails, so the whole copying block is skipped and only
`size_ = other.size_` runs, which assigns the object's own size to itself. -/
def copyAssignSelf (v : Vec α) : Vec α := ⟨v.data, v.cap⟩

/-- `Vector::operator=(Vector&&)` when `&other == this` (vector.h:156-159):
`Swap(other)` with `other` aliasing `this` performs `data_.Swap(data_)`
(`std::swap` of each field with itself) and `std::swap(size_, size_)`, leaving
every field as it was. -/
def moveAssignSelf (v : Vec α) : Vec α := ⟨v.data, v.cap⟩

end Vec

/-- The public mutating operations of `Vector<T>`, for quantifying over them. -/
inductive Op (α : Type) where
  | pushBack (a : α)
  | popBack
  | emplace (pos_index : Nat) (a : α)
  | erase (pos_index : Nat)
  | reserve (n : Nat)
  | resize (n : Nat) (fill : α)
  | copyAssignFrom (other : Vec α)
  | moveAssignFrom (other : Vec α)
  | swapWith (other : Vec α)

/-- Dispatch of each public operation to its embedding. -/
def Op.apply {α : Type} : Op α → Vec α → Vec α
  | .pushBack a, v => v.PushBack a
  | .popBack, v => v.PopBack
  | .emplace p a, v => v.Emplace p a
  | .erase p, v => v.Erase p
  | .reserve n, v => v.Reserve n
  | .resize n fill, v => v.Resize n fill
  | .copyAssignFrom w, v => v.copyAssign w
  | .moveAssignFrom w, v => (v.moveAssign w).1
  | .swapWith w, v => (v.SwapV w).1

/-- The caller-side contract of each operation: positions are in range
(`pos ≤ size` for insertion, `pos < size` for erasure, per the iterator
contract) and any other vector involved satisfies the invariant itself. -/
def Op.valid {α : Type} : Op α → Vec α → Prop
  | .emplace p _, v => p ≤ v.Size
  | .erase p, v => p < v.Size
  | .copyAssignFrom w, _ => w.inv
  | .moveAssignFrom w, _ => w.inv
  | .swapWith w, _ => w.inv
  | _, _ => True

/-- The exact capacity each public operation leaves behind, read off the code:
appends/inserts double from size (or go to 1) exactly when full; `PopBack` and
`Erase` keep the block; `Reserve n` yields `max cap n`; `Resize n` reserves `n`
when growing past the capacity; copy assignment reallocates to `other.size_`
only when `other.size_ > cap`; move assignment and `Swap` take the other
vector's capacity. -/
def Op.capAfter {α : Type} : Op α → Vec α → Nat
  | .pushBack _, v => if v.Size = v.cap then v.newCapOnFull else v.cap
  | .popBack, v => v.cap
  | .emplace _ _, v => if v.Size = v.cap then v.newCapOnFull else v.cap
  | .erase _, v => v.cap
  | .reserve n, v => max v.cap n
  | .resize n _, v => if v.Size < n then max v.cap n else v.cap
  | .copyAssignFrom w, v => if v.cap < w.Size then w.Size else v.cap
  | .moveAssignFrom w, _ => w.cap
  | .swapWith w, _ => w.cap

/-! Slot-level model of the exception paths of `InsertionWithRelocation`
(vector.h:296-319). A block is a list of slots, `some v` live, `none` raw. -/

/-- A raw block of `capacity` slots, each either live (`some v`) or raw (`none`). -/
abbrev Block (α : Type) := List (Option α)

/-- `Destroy(buf + i)` (vector.h:282-284): end the lifetime of the object in slot `i`. -/
def destroyAt {α : Type} (b : Block α) (i : Nat) : Block α := b.set i none

/-- `DestroyN(buf, n)` (vector.h:286-290): destroy slots `[0, n)` in order. -/
def destroyFirstN {α : Type} (b : Block α) (n : Nat) : Block α :=
  (List.range n).foldl (fun bb i => bb.set i none) b

/-- Placement-new of a value into slot `i` (for example vector.h:300). -/
def constructAt {α : Type} (b : Block α) (i : Nat) (a : α) : Block α :=
  b.set i (some a)

/-- `std::uninitialized_copy_n(src + s, n, dst + d)` when it completes: the values
`src[s..s+n)` are copy-constructed into slots `[d, d+n)` of `dst`. This is the
branch `MoveOrCopyUninitialized` (vector.h:328-335) takes for a copyable type
whose move constructor may throw. -/
def copyRange {α : Type} [Inhabited α] (src : List α) (s n : Nat) (dst : Block α)
    (d : Nat) : Block α :=
  (List.range n).foldl (fun bb i => bb.set (d + i) (some (src.getD (s + i) default))) dst

/-- Observable state after an exception escapes `InsertionWithRelocation`:
the old block still owned by the vector (with `size_` and `capacity` unchanged),
and the slots of the new block still live at the moment its local `RawMemory`
deallocates it — its destructor (vector.h:35-37) frees the bytes without running
element destructors, so any `some` here is a leaked, never-destroyed object. -/
structure InsFailState (α : Type) where
  oldBlock : Block α
  leakedInNewBlock : Block α
deriving DecidableEq

/-- `InsertionWithRelocation` (vector.h:296-319) on a full vector with live
elements `old` (so `size_ = old.length = capacity`), insertion offset
`pos_index`, new value `a`, when the copy relocation of the PREFIX throws while
copying element `j < pos_index`. Steps taken by the code: allocate
`size_ == 0 ? 1 : size_ * 2` raw slots; construct `a` at `pos_index` of the new
block; `std::uninitialized_copy_n` constructs `old[0..j)` then throws and
destroys the `j` objects it constructed; the catch runs
`Destroy(data_ + pos_index)` — on the OLD block — and rethrows; the local
`new_data` then deallocates the new block without destroying slot `pos_index`. -/
def insertionWithRelocationPrefixFail {α : Type} [Inhabited α] (old : List α)
    (pos_index : Nat) (a : α) (j : Nat) : InsFailState α :=
  let newCap := if old.length = 0 then 1 else old.length * 2
  let nb := constructAt (List.replicate newCap (none : Option α)) pos_index a
  let nb := destroyFirstN (copyRange old 0 j nb 0) j
  let oldAfter := destroyAt (old.map some) pos_index
  ⟨oldAfter, nb⟩

/-- `InsertionWithRelocation` (vector.h:296-319) as above, when the prefix
relocation succeeds and the copy relocation of the SUFFIX throws while copying
element `j < old.length - pos_index`. Steps taken by the code: allocate, construct
`a` at `pos_index`, copy `old[0..pos_index)` into slots `[0, pos_index)`;
`std::uninitialized_copy_n` constructs `old[pos_index..pos_index+j)` into slots
`[pos_index+1, ...)` then throws and destroys the `j` objects it constructed;
the catch runs `DestroyN(new_data.GetAddress(), pos_index)` — only the prefix,
not slot `pos_index` — and rethrows; the local `new_data` then deallocates the
new block with slot `pos_index` still live. -/
def insertionWithRelocationSuffixFail {α : Type} [Inhabited α] (old : List α)
    (pos_index : Nat) (a : α) (j : Nat) : InsFailState α :=
  let newCap := if old.length = 0 then 1 else old.length * 2
  let nb := constructAt (List.replicate newCap (none : Option α)) pos_index a
  let nb := copyRange old 0 pos_index nb 0
  let nb := (List.range j).foldl (fun bb i => bb.set (pos_index + 1 + i) none)
    (copyRange old pos_index j nb (pos_index + 1))
  let nb := destroyFirstN nb pos_index
  ⟨old.map some, nb⟩

/-- What claim C2 (and the spec) say the state after a prefix-relocation failure
must be: the original block untouched and nothing left live in the new block. -/
def insertionFailStrongGuarantee {α : Type} (old : List α)
    (st : InsFailState α) : Prop :=
  st.oldBlock = old.map some ∧ ∀ s ∈ st.leakedInNewBlock, s = none

instance {α : Type} [DecidableEq α] (old : List α) (st : InsFailState α) :
    Decidable (insertionFailStrongGuarantee old st) := by
  unfold insertionFailStrongGuarantee; infer_instance

/-- Claim C4 as stated: across all public operations, capacity strictly grows
only through the doubling rule triggered by an append or insert on a full
vector, and strictly shrinks only through copy assignment from a source whose
size exceeds the current capacity. -/
def C4ClaimStatement : Prop :=
  ∀ (v : Vec Nat) (op : Op Nat), v.inv → op.valid v →
    (v.cap < (op.apply v).cap →
      ((∃ a, op = .pushBack a) ∨ (∃ p a, op = .emplace p a)) ∧
        v.Size = v.cap ∧ (op.apply v).cap = max 1 (2 * v.Size)) ∧
    ((op.apply v).cap < v.cap →
      ∃ w, op = .copyAssignFrom w ∧ v.cap < w.Size)

/-! Helper lemmas. -/

theorem Vec.EmplaceBack_data {α : Type} (v : Vec α) (a : α) :
    (v.EmplaceBack a).data = v.data ++ [a] := by
  unfold Vec.EmplaceBack
  split <;> rfl

theorem Vec.foldl_EmplaceBack_data {α : Type} (xs : List α) (v : Vec α) :
    (xs.foldl Vec.EmplaceBack v).data = v.data ++ xs := by
  induction xs generalizing v with
  | nil => simp
  | cons a xs ih =>
    simp only [List.foldl_cons, ih, Vec.EmplaceBack_data, List.append_assoc,
      List.singleton_append]

theorem Vec.EmplaceBack_inv {α : Type} (v : Vec α) (a : α) (h : v.inv) :
    (v.EmplaceBack a).inv := by
  unfold Vec.inv Vec.EmplaceBack Vec.newCapOnFull at *
  split
  · next he =>
    simp only [Vec.Size, List.length_append, List.length_singleton] at *
    split <;> omega
  · next he =>
    simp only [Vec.Size, List.length_append, List.length_singleton] at *
    omega

theorem Vec.slots_partition {α : Type} (v : Vec α) (h : v.inv) :
    v.slots.length = v.cap ∧
    v.slots.take v.Size = v.data.map some ∧
    ∀ s ∈ v.slots.drop v.Size, s = none := by
  unfold Vec.inv at h
  unfold Vec.slots
  have hm : v.Size = (v.data.map some).length := by simp [Vec.Size]
  refine ⟨?_, ?_, ?_⟩
  · simp only [List.length_append, List.length_map, List.length_replicate, Vec.Size] at h ⊢
    omega
  · rw [List.take_append_of_le_length (le_of_eq hm), hm, List.take_length]
  · intro s hs
    rw [List.drop_append_of_le_length (le_of_eq hm), hm, List.drop_length,
      List.nil_append] at hs
    exact List.eq_of_mem_replicate hs

/-! Theorems settling the claims. -/

/-- C1: starting from the empty vector, appending the values of `xs` one by one
via `EmplaceBack` (to which `PushBack` delegates) leaves `Size()` equal to the
number of appends and the element sequence equal to the appended sequence, so
element `i` is the `i`-th appended value. -/
theorem C1_append_sequence {α : Type} (xs : List α) :
    (xs.foldl Vec.EmplaceBack Vec.empty).Size = xs.length ∧
    (xs.foldl Vec.EmplaceBack Vec.empty).data = xs ∧
    ∀ (v : Vec α) (a : α), v.PushBack a = v.EmplaceBack a := by
  refine ⟨?_, ?_, fun v a => rfl⟩
  · simp [Vec.Size, Vec.foldl_EmplaceBack_data, Vec.empty]
  · simp [Vec.foldl_EmplaceBack_data, Vec.empty]

/-- C2: the claim describes the intended strong guarantee, and the code violates
it. On a full vector `[10, 20]` (size = capacity = 2), inserting `99` at offset 1
through the relocation path: if copying the prefix throws, the catch block runs
`Destroy(data_ + 1)` on the OLD block — destroying live element `20` of the
original vector — while the target element `99` constructed in the new block is
never destroyed (leaked when the new block is deallocated); if copying the
suffix throws, the catch destroys only the prefix of the new block, again
leaking the target element. In neither case does the strong-guarantee
post-state claimed (original untouched, nothing live in the new block) hold. -/
theorem C2_insertion_relocation_failure_state :
    insertionWithRelocationPrefixFail [(10 : Int), 20] 1 99 0
      = ⟨[some 10, none], [none, some 99, none, none]⟩ ∧
    ¬ insertionFailStrongGuarantee [(10 : Int), 20]
        (insertionWithRelocationPrefixFail [(10 : Int), 20] 1 99 0) ∧
    insertionWithRelocationSuffixFail [(10 : Int), 20] 1 99 0
      = ⟨[some 10, some 20], [none, some 99, none, none]⟩ ∧
    ¬ insertionFailStrongGuarantee [(10 : Int), 20]
        (insertionWithRelocationSuffixFail [(10 : Int), 20] 1 99 0) := by
  refine ⟨by decide, by decide, by decide, by decide⟩

/-- C3: every public mutating operation, applied under its caller-side contract
to a vector satisfying `size ≤ capacity`, yields a vector that again satisfies
it, and whose block is partitioned into live slots `[0, size)` holding exactly
the element values and raw slots `[size, capacity)`. -/
theorem C3_invariant_preserved {α : Type} (v : Vec α) (op : Op α)
    (hv : v.inv) (hop : op.valid v) :
    (op.apply v).inv ∧
    (op.apply v).slots.length = (op.apply v).cap ∧
    (op.apply v).slots.take (op.apply v).Size = (op.apply v).data.map some ∧
    ∀ s ∈ (op.apply v).slots.drop (op.apply v).Size, s = none := by
  have hinv : (op.apply v).inv := by
    cases op with
    | pushBack a => exact Vec.EmplaceBack_inv v a hv
    | popBack =>
      unfold Vec.inv at *
      simp only [Op.apply, Vec.PopBack]
      split
      · simp only [Vec.Size, List.length_dropLast] at *; omega
      · exact hv
    | emplace p a =>
      simp only [Op.valid] at hop
      simp only [Op.apply, Vec.Emplace]
      split
      · exact Vec.EmplaceBack_inv v a hv
      · next hne =>
        have hlt : p < v.Size := lt_of_le_of_ne hop (fun he => hne he)
        unfold Vec.inv Vec.Size at *
        have hlen : (v.data.insertIdx p a).length = v.data.length + 1 :=
          List.length_insertIdx p v.data (le_of_lt hlt)
        split
        · next he =>
          simp only [Vec.Size, Vec.newCapOnFull, hlen]
          split <;> omega
        · next he =>
          simp only [Vec.Size, hlen]
          omega
    | erase p =>
      unfold Vec.inv at *
      simp only [Op.apply, Vec.Erase, Vec.Size]
      have := List.length_eraseIdx_le v.data p
      simp only [Vec.Size] at hv
      omega
    | reserve n =>
      unfold Vec.inv at *
      simp only [Op.apply, Vec.Reserve]
      split
      · exact hv
      · next hle => simp only [Vec.Size] at *; omega
    | resize n fill =>
      unfold Vec.inv at *
      simp only [Op.apply, Vec.Resize, Vec.Reserve]
      split
      · next hlt =>
        split
        · next hle =>
          dsimp only
          simp only [Vec.Size, List.length_append, List.length_replicate] at *
          omega
        · next hle =>
          dsimp only
          simp only [Vec.Size, List.length_append, List.length_replicate] at *
          omega
      · next hge =>
        simp only [Vec.Size, List.length_take] at *
        omega
    | copyAssignFrom w =>
      simp only [Op.valid] at hop
      unfold Vec.inv at *
      simp only [Op.apply, Vec.copyAssign]
      split
      · simp [Vec.Size]
      · next hle => simp only [Vec.Size] at *; omega
    | moveAssignFrom w =>
      simp only [Op.valid] at hop
      simpa only [Op.apply, Vec.moveAssign] using hop
    | swapWith w =>
      simp only [Op.valid] at hop
      simpa only [Op.apply, Vec.SwapV] using hop
  exact ⟨hinv, Vec.slots_partition _ hinv⟩

/-- C3 witness: inserting `7` at offset 1 of the two-element vector `[5, 6]`
with capacity 2 (the full, relocating path) preserves the invariant. -/
theorem C3_invariant_preserved_witness :
    (Vec.inv ⟨[5, 6], 2⟩) ∧ (Op.emplace 1 (7 : Nat)).valid ⟨[5, 6], 2⟩ ∧
    ((Op.emplace 1 (7 : Nat)).apply ⟨[5, 6], 2⟩).inv := by
  have hvalid : (Op.emplace 1 (7 : Nat)).valid ⟨[5, 6], 2⟩ := by
    show 1 ≤ Vec.Size ⟨[5, 6], 2⟩
    decide
  refine ⟨by decide, hvalid, ?_⟩
  exact (C3_invariant_preserved ⟨[5, 6], 2⟩ (Op.emplace 1 7)
    (by decide) hvalid).1

/-- C4 counterexample: the claim as stated is false. `Reserve(3)` on an empty
vector (capacity 0) grows the capacity to 3, yet it is neither a `PushBack` nor
an `Emplace`, and 3 is not `max 1 (2 × size)`. -/
theorem C4_counterexample : ¬ C4ClaimStatement := by
  intro h
  have h0 : (Vec.inv (⟨[], 0⟩ : Vec Nat)) := by decide
  have hgrow : (⟨[], 0⟩ : Vec Nat).cap
      < ((Op.reserve 3).apply (⟨[], 0⟩ : Vec Nat)).cap := by
    decide
  have h2 := (h ⟨[], 0⟩ (Op.reserve 3) h0 trivial).1 hgrow
  rcases h2 with ⟨h3 | h3, _, _⟩
  · rcases h3 with ⟨a, ha⟩
    exact Op.noConfusion ha
  · rcases h3 with ⟨p, a, ha⟩
    exact Op.noConfusion ha

/-- C4 amended: when an append (`PushBack`/`EmplaceBack`) or insert
(`Emplace`/`Insert`) finds the vector full it sets the capacity to
`size == 0 ? 1 : size * 2` and otherwise keeps it; `PopBack` and `Erase` keep
the capacity; `Reserve n` yields `max capacity n` (growth to exactly `n`, never
shrinking); `Resize n` reserves `n` when growing past the capacity and never
shrinks it; copy assignment replaces the block (capacity = source size) only
when the source's size exceeds this capacity, so it never shrinks capacity;
move assignment and `Swap` exchange capacities with the other vector. -/
theorem C4_capacity_evolution {α : Type} (v : Vec α) (op : Op α) :
    (op.apply v).cap = op.capAfter v := by
  cases op with
  | pushBack a =>
    simp only [Op.apply, Op.capAfter, Vec.PushBack, Vec.EmplaceBack]
    split <;> rfl
  | popBack =>
    simp only [Op.apply, Op.capAfter, Vec.PopBack]
    split <;> rfl
  | emplace p a =>
    simp only [Op.apply, Op.capAfter, Vec.Emplace, Vec.EmplaceBack]
    split
    · split <;> rfl
    · split <;> rfl
  | erase p => rfl
  | reserve n =>
    simp only [Op.apply, Op.capAfter, Vec.Reserve]
    split
    · next hle => omega
    · next hle => dsimp only; omega
  | resize n fill =>
    simp only [Op.apply, Op.capAfter, Vec.Resize, Vec.Reserve]
    split
    · split
      · next hle => dsimp only; omega
      · next hle => dsimp only; omega
    · rfl
  | copyAssignFrom w =>
    simp only [Op.apply, Op.capAfter, Vec.copyAssign]
    split <;> rfl
  | moveAssignFrom w => rfl
  | swapWith w => rfl

/-- C5: the claim holds for the `RawMemory` move constructor but fails for move
assignment, and the failure is a slip against the documented contract. Moving
`RawMemory` b (block B, capacity 2) into a (block A, capacity 1):
the constructor-style transfer leaves the source as `(nullptr, 0)`, but
`operator=` swaps only the buffer pointers and then copies the capacity, so the
source ends as (block A, capacity 2) — holding the destination's old 1-element
block while claiming capacity 2 — not the empty `(nullptr, 0)` state. -/
theorem C5_moveAssign_source_state :
    RawMemory.moveConstruct ⟨some 1, 2⟩ = (⟨some 1, 2⟩, ⟨none, 0⟩) ∧
    RawMemory.moveAssign ⟨some 0, 1⟩ ⟨some 1, 2⟩ = (⟨some 1, 2⟩, ⟨some 0, 2⟩) ∧
    (RawMemory.moveAssign ⟨some 0, 1⟩ ⟨some 1, 2⟩).2 ≠ ⟨none, 0⟩ := by
  refine ⟨rfl, rfl, by decide⟩

/-- C6: the claim (and the spec scenario `[99,2]` resized to 4 gives
`[99,2,0,0]`) fails on the code for `int`: `Resize` fills the newly exposed
slots with `std::uninitialized_default_construct_n`, which for `int`
default-initializes and leaves the values indeterminate, not 0. Elements are
modelled as `Option Int` with `none` for an indeterminate value; the code's
fill for `int` is `none`, so resizing `[99, 2]` (capacity 2) to 4 yields
`[99, 2, ?, ?]`, not `[99, 2, 0, 0]`; likewise resizing down to 1 and back to 2
yields `[99, ?]`, not `[99, 0]`. -/
theorem C6_resize_default_init :
    (Vec.Resize ⟨[some 99, some 2], 2⟩ 4 (none : Option Int)).data
      = [some 99, some 2, none, none] ∧
    (Vec.Resize ⟨[some 99, some 2], 2⟩ 4 (none : Option Int)).data
      ≠ [some 99, some 2, some 0, some 0] ∧
    ((Vec.Resize (Vec.Resize ⟨[some 99, some 2], 2⟩ 1 (none : Option Int)) 2
        (none : Option Int)).data = [some 99, none]) ∧
    ((Vec.Resize (Vec.Resize ⟨[some 99, some 2], 2⟩ 1 (none : Option Int)) 2
        (none : Option Int)).data ≠ [some 99, some 0]) := by
  refine ⟨by decide, by decide, by decide, by decide⟩

/-- C7: inserting a value at any valid offset `k ≤ size` and then erasing at
offset `k` restores the original element sequence, whichever insertion path
(append, in-place, or relocating) was taken. -/
theorem C7_insert_erase_inverse {α : Type} (v : Vec α) (k : Nat) (a : α)
    (h : k ≤ v.Size) :
    ((v.Emplace k a).Erase k).data = v.data := by
  have hdata : (v.Emplace k a).data = v.data.insertIdx k a := by
    unfold Vec.Emplace
    split
    · next he =>
      rw [Vec.EmplaceBack_data, he]
      exact (List.insertIdx_length_self v.data a).symm
    · split <;> rfl
  unfold Vec.Erase
  rw [hdata]
  exact List.eraseIdx_insertIdx k v.data

/-- C7 witness: inserting 9 at offset 1 of `[5, 6]` and erasing at offset 1
gives back `[5, 6]`. -/
theorem C7_insert_erase_inverse_witness :
    1 ≤ (⟨[5, 6], 2⟩ : Vec Nat).Size ∧
    (((⟨[5, 6], 2⟩ : Vec Nat).Emplace 1 9).Erase 1).data = [5, 6] := by
  exact ⟨by decide, C7_insert_erase_inverse ⟨[5, 6], 2⟩ 1 9 (by decide)⟩

/-- C8: `PopBack` keeps the capacity and removes exactly the last live slot
(the data becomes `dropLast` of the old data, so every other element is
unchanged and the size drops by one); on an empty vector it changes nothing. -/
theorem C8_PopBack_spec {α : Type} (v : Vec α) :
    (v.PopBack).cap = v.cap ∧
    (v.PopBack).data = v.data.dropLast ∧
    (v.PopBack).Size = v.Size - 1 := by
  unfold Vec.PopBack
  split
  · exact ⟨rfl, rfl, by simp [Vec.Size]⟩
  · next h =>
    simp only [ne_eq, Decidable.not_not, Vec.Size] at h
    have : v.data = [] := List.eq_nil_of_length_eq_zero h
    refine ⟨rfl, ?_, ?_⟩ <;> simp [Vec.Size, this]

/-- C9: copy-assigning a vector to itself (the `this != &other` guard fails and
only the self-assignment `size_ = other.size_` runs) and move-assigning a
vector to itself (`Swap` of every field with itself) both leave the vector —
its size, capacity, and all element values — unchanged. -/
theorem C9_self_assignment {α : Type} (v : Vec α) :
    v.copyAssignSelf = v ∧ v.moveAssignSelf = v :=
  ⟨rfl, rfl⟩

/-- C10: `PopBack` and `Erase` touch no storage: the capacity after either call
equals the capacity before it; `Erase` at a valid position only closes the gap
(the data becomes `eraseIdx` of the old data, so the prefix before the erased
position is untouched), and `PopBack` only drops the last element. -/
theorem C10_popBack_erase_frame {α : Type} (v : Vec α) (p : Nat)
    (h : p < v.Size) :
    (v.Erase p).cap = v.cap ∧
    (v.PopBack).cap = v.cap ∧
    (v.Erase p).data = v.data.eraseIdx p ∧
    (v.Erase p).data.take p = v.data.take p ∧
    (v.PopBack).data = v.data.dropLast := by
  have hcapPop : (v.PopBack).cap = v.cap := by
    unfold Vec.PopBack; split <;> rfl
  have hdataPop : (v.PopBack).data = v.data.dropLast := by
    unfold Vec.PopBack
    split
    · rfl
    · next h0 =>
      simp only [ne_eq, Decidable.not_not, Vec.Size] at h0
      have : v.data = [] := List.eq_nil_of_length_eq_zero h0
      simp [this]
  refine ⟨rfl, hcapPop, rfl, ?_, hdataPop⟩
  unfold Vec.Erase
  rw [List.eraseIdx_eq_take_drop_succ]
  rw [List.take_append_of_le_length (by simp [Vec.Size] at h ⊢; omega)]
  rw [List.take_take]
  simp

/-- C10 witness: erasing offset 1 of `[1, 2, 3]` (capacity 3) keeps capacity 3
and the prefix `[1]`. -/
theorem C10_popBack_erase_frame_witness :
    1 < (⟨[1, 2, 3], 3⟩ : Vec Nat).Size ∧
    ((⟨[1, 2, 3], 3⟩ : Vec Nat).Erase 1).cap = 3 ∧
    ((⟨[1, 2, 3], 3⟩ : Vec Nat).Erase 1).data.take 1 = [1] := by
  have h := C10_popBack_erase_frame (⟨[1, 2, 3], 3⟩ : Vec Nat) 1 (by decide)
  exact ⟨by decide, h.1, by rw [h.2.2.2.1]; decide⟩

end MyVector
